import Mathlib

/-!
Verification development for the disks-rs storage provisioning system.

Shallow embedding of the core subsystems:
- size alignment helpers (crates/disks/src/sizing.rs)
- the partition planner (crates/partitioning/src/planner.rs; the file is
  absent from the source snapshot, so the planner is modelled from the
  specification, see the doc comments below)
- the strategy allocator (crates/partitioning/src/strategy.rs)
- the disk writer validation (crates/partitioning/src/writer.rs)
- the superblock identifier (crates/superblock/src/lib.rs and friends)

Machine integers (u64, u32, u16, u8) are modelled as Nat.  The Rust code
uses checked arithmetic in the paths under study; `u64` subtraction is
modelled by truncated Nat subtraction and noted where it could diverge.
-/

namespace DisksRs

/-! Sizing and alignment, from crates/disks/src/sizing.rs. -/

/-- Check if a value is already aligned to the given boundary
(`is_aligned` in sizing.rs). -/
def is_aligned (value alignment : Nat) : Bool :=
  value % alignment == 0

/-- Align up to the nearest multiple of alignment, unless already aligned
(`align_up` in sizing.rs).  Snap-to-nearer, biased down: a remainder of at
most half the alignment rounds down. -/
def align_up (value alignment : Nat) : Nat :=
  let remainder := value % alignment
  if remainder = 0 then value
  else if remainder > alignment / 2 then value + (alignment - remainder)
  else value - remainder

/-- Align down to the nearest multiple of alignment, unless already aligned
(`align_down` in sizing.rs).  Snap-to-nearer, biased up: a remainder of at
least half the alignment rounds up. -/
def align_down (value alignment : Nat) : Nat :=
  let remainder := value % alignment
  if remainder = 0 then value
  else if remainder < alignment / 2 then value - remainder
  else value + (alignment - remainder)

/-- One mebibyte, the default partition alignment. -/
def MiB : Nat := 1024 * 1024

/-- Decidable equality of `Except` results, for evaluating the model on
concrete inputs. -/
instance {e a : Type} [DecidableEq e] [DecidableEq a] :
    DecidableEq (Except e a) := fun
  | .error e1, .error e2 =>
    if h : e1 = e2 then .isTrue (h ▸ rfl)
    else .isFalse fun hc => h (Except.error.inj hc)
  | .error _, .ok _ => .isFalse fun hc => Except.noConfusion hc
  | .ok _, .error _ => .isFalse fun hc => Except.noConfusion hc
  | .ok a1, .ok a2 =>
    if h : a1 = a2 then .isTrue (h ▸ rfl)
    else .isFalse fun hc => h (Except.ok.inj hc)

/-! Shared data types, from crates/types/src/filesystem.rs and
crates/partitioning/src/attributes.rs. -/

/-- `StandardFilesystemType` from types/src/filesystem.rs. -/
inductive StandardFilesystemType where
  | F2fs
  | Ext4
  | Xfs
  | Swap
deriving DecidableEq, Repr

/-- `Filesystem` from types/src/filesystem.rs. -/
inductive Filesystem where
  | Fat32 (label : Option String) (volume_id : Option Nat)
  | Standard (filesystem_type : StandardFilesystemType)
      (label : Option String) (uuid : Option String)
deriving DecidableEq, Repr

/-- Modelled from the spec: `PartitionRole` (referenced by attributes.rs
from the types crate; the defining file is absent from the snapshot).
The spec lists the roles EFI, boot, root, swap, home, extended-boot. -/
inductive PartitionRole where
  | efi
  | boot
  | root
  | swap
  | home
  | extendedBoot
deriving DecidableEq, Repr

/-- `GptAttributes` from attributes.rs.  The GUID type of the gpt crate is
modelled as a string. -/
structure GptAttributes where
  type_guid : String
  name : Option String
  uuid : Option String
deriving DecidableEq, Repr

/-- `TableAttributes` from attributes.rs: only the GPT variant exists. -/
inductive TableAttributes where
  | Gpt (attributes : GptAttributes)
deriving DecidableEq, Repr

/-- `PartitionAttributes` from attributes.rs. -/
structure PartitionAttributes where
  table : TableAttributes
  role : Option PartitionRole
  filesystem : Option Filesystem
deriving DecidableEq, Repr

/-! The planner.  crates/partitioning/src/planner.rs is absent from the
source snapshot (only its callers strategy.rs and writer.rs are present),
so the planner state and operations are modelled from the specification:
spec sections 3 (Region, Change, Planner state), 4.1 (usable offsets) and
4.3 (public operations and their error cases). -/

/-- `Region` from the planner: an inclusive-start exclusive-end byte
interval with an optional partition id.  The Rust field `end` is spelled
`end_` because `end` is a Lean keyword. -/
structure Region where
  start : Nat
  end_ : Nat
  partition_id : Option Nat
deriving DecidableEq, Repr

/-- `Region::new(start, end)`: a region with no partition id. -/
def Region.new (start end_ : Nat) : Region :=
  { start := start, end_ := end_, partition_id := none }

/-- `Region::size()`: derived size of the interval. -/
def Region.size (r : Region) : Nat :=
  r.end_ - r.start

/-- `Change`, the planner journal entry (spec section 3, matching the
variants destructured by writer.rs).  `DeletePartition` preserves the
deleted region and its index so `undo` can reinsert it. -/
inductive Change where
  | AddPartition (start end_ : Nat) (partition_id : Nat)
      (attributes : Option PartitionAttributes)
  | DeletePartition (partition_id : Nat) (original_index : Nat)
      (region : Region) (attributes : Option PartitionAttributes)
deriving DecidableEq, Repr

/-- `PlanError`, the planner error type used by strategy.rs.
`RegionOutOfBounds { start, end }`, `NoFreeRegions`, `PartitionOverlap`
and `InvalidSize` appear in strategy.rs and the spec; `UnknownPartition`
models the unnamed failure of deleting a partition id that is absent. -/
inductive PlanError where
  | RegionOutOfBounds (start end_ : Nat)
  | PartitionOverlap (start end_ : Nat)
  | InvalidSize (start end_ : Nat)
  | NoFreeRegions
  | UnknownPartition (id : Nat)
deriving DecidableEq, Repr

/-- Insert a region into a start-sorted layout, keeping it sorted
(the planner keeps `current_layout` sorted by start, spec section 3). -/
def insertSorted (r : Region) : List Region → List Region
  | [] => [r]
  | a :: rest =>
    if r.start ≤ a.start then r :: a :: rest else a :: insertSorted r rest

/-- Sort a layout by region start (insertion sort). -/
def sortByStart (l : List Region) : List Region :=
  l.foldr insertSorted []

/-- Insert an element at an index, shifting the tail (Vec::insert). -/
def insertAt : Nat → Region → List Region → List Region
  | 0, x, l => x :: l
  | _ + 1, x, [] => [x]
  | n + 1, x, a :: l => a :: insertAt n x l

/-- Largest partition id present in a layout (0 when none). -/
def maxPartitionId (l : List Region) : Nat :=
  l.foldr (fun r acc => Nat.max (r.partition_id.getD 0) acc) 0

/-- Planner state for a single disk (spec section 3). -/
structure Planner where
  original_layout : List Region
  current_layout : List Region
  changes : List Change
  wipe_disk : Bool
  next_partition_id : Nat
  size : Nat
  alignment : Nat
  first_usable : Nat
  last_usable : Nat
deriving DecidableEq, Repr

/-- Modelled from the spec: planner construction.  `original_layout` and
`current_layout` are the device snapshot sorted by start; the id counter
is seeded from `max(original_ids) + 1`; alignment defaults to 1 MiB;
first usable byte = alignment; last usable byte = (disk size - 1 MiB)
aligned down (spec sections 3 and 4.1). -/
def Planner.new (original : List Region) (size : Nat) : Planner :=
  let layout := sortByStart original
  { original_layout := layout
    current_layout := layout
    changes := []
    wipe_disk := false
    next_partition_id := maxPartitionId original + 1
    size := size
    alignment := MiB
    first_usable := MiB
    last_usable := align_down (size - MiB) MiB }

/-- `has_changes()`: whether the journal is non-empty. -/
def Planner.has_changes (p : Planner) : Bool :=
  !p.changes.isEmpty

/-- `offsets()`: the usable byte range `(first_usable, last_usable)`. -/
def Planner.offsets (p : Planner) : Nat × Nat :=
  (p.first_usable, p.last_usable)

/-- Modelled from the spec: `plan_add_partition_with_attributes`.
Both endpoints are snapped to the alignment; the aligned interval must
lie within `[first_usable, last_usable]`, must not overlap any current
partition, and must satisfy `start < end`; on success the next unused id
is assigned and the add is journaled (spec section 4.3). -/
def Planner.plan_add_partition_with_attributes (p : Planner)
    (start end_ : Nat) (attributes : Option PartitionAttributes) :
    Planner × Except PlanError Nat :=
  let s := align_up start p.alignment
  let e := align_down end_ p.alignment
  if s < p.first_usable ∨ p.last_usable < e then
    (p, .error (.RegionOutOfBounds s e))
  else if p.current_layout.any (fun r => decide (s < r.end_ ∧ r.start < e)) then
    (p, .error (.PartitionOverlap s e))
  else if e ≤ s then
    (p, .error (.InvalidSize s e))
  else
    let id := p.next_partition_id
    ({ p with
        current_layout :=
          insertSorted { start := s, end_ := e, partition_id := some id }
            p.current_layout
        changes := p.changes ++ [.AddPartition s e id attributes]
        next_partition_id := id + 1 },
      .ok id)

/-- `plan_add_partition(start, end)`: add with no attributes. -/
def Planner.plan_add_partition (p : Planner) (start end_ : Nat) :
    Planner × Except PlanError Nat :=
  p.plan_add_partition_with_attributes start end_ none

/-- Modelled from the spec: `plan_delete_partition` removes the partition
with the given id and journals enough state (region and index) to restore
it on undo (spec sections 3 and 4.3). -/
def Planner.plan_delete_partition (p : Planner) (id : Nat) :
    Planner × Except PlanError Unit :=
  match p.current_layout.findIdx? (fun r => r.partition_id == some id) with
  | none => (p, .error (.UnknownPartition id))
  | some i =>
    match p.current_layout[i]? with
    | none => (p, .error (.UnknownPartition id))
    | some r =>
      ({ p with
          current_layout := p.current_layout.eraseIdx i
          changes := p.changes ++ [.DeletePartition id i r none] },
        .ok ())

/-- Modelled from the spec: `plan_initialize_disk` sets the wipe latch,
removes all partitions (journaling a delete for each, front first, so
undo restores them), and restarts ids from 1 (spec section 4.3). -/
def Planner.plan_initialize_disk (p : Planner) :
    Planner × Except PlanError Unit :=
  ({ p with
      current_layout := []
      changes := p.changes ++
        p.current_layout.map
          (fun r => .DeletePartition (r.partition_id.getD 0) 0 r none)
      wipe_disk := true
      next_partition_id := 1 },
    .ok ())

/-- Reverse a single journal entry on a layout: an add is reversed by
erasing the added id, a delete by reinserting the saved region at its
saved index (spec section 4.3, `undo()`). -/
def reverseChange (c : Change) (layout : List Region) : List Region :=
  match c with
  | .AddPartition _ _ id _ =>
    layout.eraseP (fun r => r.partition_id == some id)
  | .DeletePartition _ idx r _ => insertAt idx r layout

/-- Modelled from the spec: `undo()` pops the most recent change and
reverses it; the id counter is not rewound (ids are not reused); reaching
an empty journal clears the wipe latch (spec section 4.3). -/
def Planner.undo (p : Planner) : Planner :=
  match p.changes.getLast? with
  | none => p
  | some c =>
    let remaining := p.changes.dropLast
    { p with
        changes := remaining
        current_layout := reverseChange c p.current_layout
        wipe_disk := if remaining.isEmpty then false else p.wipe_disk }

/-- Iterate `undo` a fixed number of times. -/
def Planner.undoN : Nat → Planner → Planner
  | 0, p => p
  | n + 1, p => Planner.undoN n p.undo

/-- Call `undo()` until `has_changes()` is false: one `undo` per journal
entry.  This is the rewind loop in strategy.rs
(`while planner.has_changes() { planner.undo(); }`). -/
def Planner.undoAll (p : Planner) : Planner :=
  Planner.undoN p.changes.length p

/-- Apply the reversals of a journal, most recent first, to a layout. -/
def rewind (cs : List Change) (layout : List Region) : List Region :=
  cs.foldr reverseChange layout

/-- The planner operations quantified over by the undo round-trip claim. -/
inductive PlannerOp where
  | initDisk
  | add (start end_ : Nat)
  | addWithAttributes (start end_ : Nat)
      (attributes : Option PartitionAttributes)
  | delete (id : Nat)
deriving DecidableEq, Repr

/-- Run one planner operation, keeping the planner unchanged on error
(each planner operation fails atomically). -/
def applyOp (p : Planner) (op : PlannerOp) : Planner :=
  match op with
  | .initDisk => p.plan_initialize_disk.1
  | .add s e => (p.plan_add_partition s e).1
  | .addWithAttributes s e a => (p.plan_add_partition_with_attributes s e a).1
  | .delete id => (p.plan_delete_partition id).1

/-- Run a sequence of planner operations. -/
def runOps (p : Planner) (ops : List PlannerOp) : Planner :=
  ops.foldl applyOp p

/-- Journal coherence invariant: replaying the journal backwards from the
current layout yields the original layout, and every id in the current
layout is below the id counter. -/
def PlannerInv (p : Planner) : Prop :=
  rewind p.changes p.current_layout = p.original_layout ∧
    ∀ r ∈ p.current_layout, ∀ i, r.partition_id = some i →
      i < p.next_partition_id

/-! The strategy allocator, from crates/partitioning/src/strategy.rs. -/

/-- `AllocationStrategy` from strategy.rs. -/
inductive AllocationStrategy where
  | InitializeWholeDisk
  | LargestFree
  | FirstFit
  | SpecificRegion (region : Region)
deriving DecidableEq, Repr

/-- `SizeRequirement` from strategy.rs. -/
inductive SizeRequirement where
  | Exact (size : Nat)
  | AtLeast (min : Nat)
  | Range (min max : Nat)
  | Remaining
deriving DecidableEq, Repr

/-- `PartitionRequest` from strategy.rs. -/
structure PartitionRequest where
  size : SizeRequirement
  attributes : Option PartitionAttributes
deriving DecidableEq, Repr

/-- `Strategy` from strategy.rs. -/
structure Strategy where
  allocation : AllocationStrategy
  requests : List PartitionRequest
deriving DecidableEq, Repr

/-- `Strategy::find_free_regions`: gaps between the start-sorted current
partitions inside the usable range, plus the tail after the last one. -/
def find_free_regions (planner : Planner) : List Region :=
  let first := planner.offsets.1
  let disk_size := planner.offsets.2
  let layout := sortByStart planner.current_layout
  let scanned :=
    layout.foldl
      (fun (acc : List Region × Nat) region =>
        if region.start > acc.2 then
          (acc.1 ++ [Region.new acc.2 region.start], region.end_)
        else
          (acc.1, region.end_))
      ([], first)
  if scanned.2 < disk_size then
    scanned.1 ++ [Region.new scanned.2 disk_size]
  else
    scanned.1

/-- `iter().max_by_key(|r| r.size())`: the last region of maximal size
(Rust's `max_by_key` returns the last maximal element). -/
def maxBySize (regions : List Region) : Option Region :=
  regions.foldl
    (fun acc r =>
      match acc with
      | none => some r
      | some m => if m.size ≤ r.size then some r else some m)
    none

/-- First classification pass of `Strategy::apply` (strategy.rs lines
180-195): total exact bytes, summed flexible minimums, and the flexible
requests as `(request index, min, optional max)` in input order. -/
def classifyAux : List PartitionRequest → Nat →
    Nat × Nat × List (Nat × Nat × Option Nat)
  | [], _ => (0, 0, [])
  | req :: rest, i =>
    let tail := classifyAux rest (i + 1)
    match req.size with
    | .Exact n => (tail.1 + n, tail.2.1, tail.2.2)
    | .AtLeast m => (tail.1, tail.2.1 + m, (i, m, none) :: tail.2.2)
    | .Range m M => (tail.1, tail.2.1 + m, (i, m, some M) :: tail.2.2)
    | .Remaining => (tail.1, tail.2.1, (i, 0, none) :: tail.2.2)

/-- The size computed for one flexible request in `Strategy::apply`
(strategy.rs lines 231-244).  `remaining_flexible` is the count of
flexible requests left after the current one (the loop decrements before
computing).  The last request takes all remaining space clamped by max
then floored by min; the others take min plus the fair share
`remaining / (remaining_flexible + 1)`, clamped by max. -/
def flexible_size (min : Nat) (max_opt : Option Nat)
    (remaining remaining_flexible : Nat) : Nat :=
  if remaining_flexible = 0 then
    match max_opt with
    | some max => Nat.max (Nat.min remaining max) min
    | none => Nat.max remaining min
  else
    let share := remaining / (remaining_flexible + 1)
    match max_opt with
    | some max => Nat.min (min + share) max
    | none => min + share

/-- The flexible sizing rule as worded over the remaining-flexible count
`k` that includes the current request: the last flexible request
(`k = 1`) takes all remaining space clamped by max then floored by min;
any other takes min plus the fair share `remaining / k`, clamped by max.
(The claim under study divides by `k + 1` instead; see the theorems.) -/
def spec_flexible_size (min : Nat) (max_opt : Option Nat)
    (remaining k : Nat) : Nat :=
  if k = 1 then
    match max_opt with
    | some max => Nat.max (Nat.min remaining max) min
    | none => Nat.max remaining min
  else
    match max_opt with
    | some max => Nat.min (min + remaining / k) max
    | none => min + remaining / k

/-- The exact-size pass of `Strategy::apply` (strategy.rs lines 205-212):
allocate each `Exact` request in input order, advancing the cursor.  An
error propagates immediately (the Rust `?` operator) without rollback. -/
def exactPass (p : Planner) (reqs : List PartitionRequest)
    (current remaining : Nat) : Planner × Except PlanError (Nat × Nat) :=
  match reqs with
  | [] => (p, .ok (current, remaining))
  | req :: rest =>
    match req.size with
    | .Exact size =>
      match p.plan_add_partition_with_attributes current (current + size)
          req.attributes with
      | (p2, .ok _) => exactPass p2 rest (current + size) (remaining - size)
      | (p2, .error e) => (p2, .error e)
    | _ => exactPass p rest current remaining

/-- The flexible pass of `Strategy::apply` (strategy.rs lines 214-263).
Both failure exits (a minimum that no longer fits, and the planner
rejecting a computed interval) rewind the planner by calling `undo()`
until `has_changes()` is false before returning the error. -/
def flexPass (s : Strategy) :
    Planner → List (Nat × Nat × Option Nat) → Nat → Nat →
      Planner × Except PlanError Unit
  | p, [], _, _ => (p, .ok ())
  | p, (idx, min, max_opt) :: rest, current, remaining =>
    if min > remaining then
      (p.undoAll, .error (.RegionOutOfBounds current (current + min)))
    else
      let size := flexible_size min max_opt remaining rest.length
      match p.plan_add_partition_with_attributes current (current + size)
          ((s.requests[idx]?).bind (fun r => r.attributes)) with
      | (p2, .ok _) => flexPass s p2 rest (current + size) (remaining - size)
      | (p2, .error e) => (p2.undoAll, .error e)

/-- `Strategy::apply` (strategy.rs lines 148-266): pick the target region
per the allocation mode, precheck that fixed plus minimum flexible bytes
fit, place exact requests, then place flexible requests. -/
def Strategy.apply (s : Strategy) (planner : Planner) :
    Planner × Except PlanError Unit :=
  let sel : Planner × Except PlanError Region :=
    match s.allocation with
    | .InitializeWholeDisk =>
      let p2 := planner.plan_initialize_disk.1
      (p2, .ok (Region.new p2.offsets.1 p2.offsets.2))
    | .LargestFree =>
      match maxBySize (find_free_regions planner) with
      | some r => (planner, .ok r)
      | none => (planner, .error .NoFreeRegions)
    | .FirstFit =>
      match (find_free_regions planner).head? with
      | some r => (planner, .ok r)
      | none => (planner, .error .NoFreeRegions)
    | .SpecificRegion region => (planner, .ok region)
  match sel with
  | (p, .error e) => (p, .error e)
  | (p, .ok target) =>
    let current := target.start
    let remaining := target.end_ - target.start
    let classified := classifyAux s.requests 0
    let total_fixed := classified.1
    let min_flexible := classified.2.1
    let flexible_requests := classified.2.2
    if total_fixed + min_flexible > remaining then
      (p, .error (.RegionOutOfBounds current
        (current + (total_fixed + min_flexible))))
    else
      match exactPass p s.requests current remaining with
      | (p2, .error e) => (p2, .error e)
      | (p2, .ok cr) => flexPass s p2 flexible_requests cr.1 cr.2

/-! The disk writer, from crates/partitioning/src/writer.rs. -/

/-- `WriteError` from writer.rs.  The payloads of the wrapped library
errors are irrelevant here and omitted. -/
inductive WriteError where
  | Blkpg
  | DuplicatePartitionId (id : Nat)
  | Gpt
  | Mbr
  | IoError
deriving DecidableEq, Repr

/-- A `DiskWriter` borrows the block device (its observed byte size is
what matters here) and the planner. -/
structure DiskWriter where
  device_size : Nat
  planner : Planner
deriving DecidableEq, Repr

/-- The journal scan inside `DiskWriter::validate_changes` (writer.rs
lines 116-133): walk the changes in order with a live id set; an add of a
live id fails with `DuplicatePartitionId`, a delete removes the id. -/
def validate_go (used : List Nat) : List Change → Except WriteError Unit
  | [] => .ok ()
  | .AddPartition _ _ id _ :: rest =>
    if id ∈ used then .error (.DuplicatePartitionId id)
    else validate_go (id :: used) rest
  | .DeletePartition id _ _ _ :: rest => validate_go (used.erase id) rest

/-- `DiskWriter::validate_changes`: validate the planner journal before
any change is applied to the device. -/
def DiskWriter.validate_changes (w : DiskWriter) : Except WriteError Unit :=
  validate_go [] w.planner.changes

/-- The live id set after scanning a journal, starting from `used`:
each add inserts its id (sets ignore duplicates), each delete removes. -/
def live_ids (used : List Nat) : List Change → List Nat
  | [] => used
  | .AddPartition _ _ id _ :: rest =>
    live_ids (if id ∈ used then used else id :: used) rest
  | .DeletePartition id _ _ _ :: rest => live_ids (used.erase id) rest

/-! The superblock identifier, from crates/superblock/src/lib.rs and the
per-format modules.  A byte source (a `&[u8]` buffer or a seekable
reader) is modelled as a length plus a byte-at-index function. -/

/-- A byte buffer: `len` bytes, `byteAt i` for `i < len`. -/
structure Buf where
  len : Nat
  byteAt : Nat → Nat

/-- The `n` bytes starting at `off`. -/
def byteSlice (b : Buf) (off n : Nat) : List Nat :=
  (List.range n).map (fun i => b.byteAt (off + i))

/-- `read_exact` after seeking to `off`: fails (with an I/O error in the
Rust code) when fewer than `n` bytes remain. -/
def readExact (b : Buf) (off n : Nat) : Option (List Nat) :=
  if off + n ≤ b.len then some (byteSlice b off n) else none

/-- The error type of superblock identification (`Error` in
superblock/src/lib.rs): an I/O error or no recognized superblock. -/
inductive SbError where
  | Io
  | UnknownSuperblock
deriving DecidableEq, Repr

/-- `Kind` from superblock/src/lib.rs. -/
inductive Kind where
  | Btrfs
  | Ext4
  | Luks2
  | F2FS
  | Xfs
  | Fat
deriving DecidableEq, Repr

/-- The four `Detection` constants of a format plus its magic predicate
(trait `Detection` in superblock/src/lib.rs). -/
structure FormatDesc where
  magic_offset : Nat
  magic_len : Nat
  magic_ok : List Nat → Bool
  offset : Nat
  size : Nat

/-- Modelled from the spec: the ext4 `Detection` constants (ext4.rs is
absent from the snapshot).  Magic `0xEF53` as a little-endian u16 at
byte 1024 + 0x38; the superblock starts at 1024 and is 1024 bytes. -/
def ext4Desc : FormatDesc :=
  { magic_offset := 1024 + 0x38
    magic_len := 2
    magic_ok := fun m => m == [0x53, 0xEF]
    offset := 1024
    size := 1024 }

/-- Modelled from the spec: the btrfs `Detection` constants (the impl is
absent from the snapshot; the partial struct in btrfs.rs is 104 bytes
with the magic `_BHRfS_M` as a little-endian u64 at offset 64 of the
superblock, which starts at 65536). -/
def btrfsDesc : FormatDesc :=
  { magic_offset := 65536 + 64
    magic_len := 8
    magic_ok := fun m => m == [0x5F, 0x42, 0x48, 0x52, 0x66, 0x53, 0x5F, 0x4D]
    offset := 65536
    size := 104 }

/-- The f2fs `Detection` constants (f2fs.rs): magic `0xF2F52010` as a
little-endian u32 at byte 1024; the superblock starts at 1024 and the
struct is 3072 bytes. -/
def f2fsDesc : FormatDesc :=
  { magic_offset := 1024
    magic_len := 4
    magic_ok := fun m => m == [0x10, 0x20, 0xF5, 0xF2]
    offset := 1024
    size := 3072 }

/-- Modelled from the spec: the xfs `Detection` constants (xfs.rs is
absent from the snapshot).  Magic `XFSB` at byte 0; the superblock starts
at 0 and is 512 bytes. -/
def xfsDesc : FormatDesc :=
  { magic_offset := 0
    magic_len := 4
    magic_ok := fun m => m == [0x58, 0x46, 0x53, 0x42]
    offset := 0
    size := 512 }

/-- The luks2 `Detection` constants (luks2/superblock.rs): a 6-byte magic
at byte 0, either `LUKS\xba\xbe` or `SKUL\xba\xbe`; the 4096-byte header
starts at 0. -/
def luks2Desc : FormatDesc :=
  { magic_offset := 0
    magic_len := 6
    magic_ok := fun m =>
      m == [0x4C, 0x55, 0x4B, 0x53, 0xBA, 0xBE] ||
        m == [0x53, 0x4B, 0x55, 0x4C, 0xBA, 0xBE]
    offset := 0
    size := 4096 }

/-- The fat `Detection` constants (fat.rs): the 2-byte magic `0x55 0xAA`
at byte 0x1FE; the 90-byte boot sector starts at 0. -/
def fatDesc : FormatDesc :=
  { magic_offset := 0x1FE
    magic_len := 2
    magic_ok := fun m => m == [0x55, 0xAA]
    offset := 0
    size := 90 }

/-- `detect_superblock` (superblock/src/lib.rs lines 65-83): seek to the
magic, read it (an I/O failure propagates), and on a match read the
superblock body.  The bodies are plain-old-data structs, so the zerocopy
parse of an exactly-sized buffer always succeeds; the model returns
whether this format matched. -/
def detect_superblock (d : FormatDesc) (b : Buf) : Except SbError Bool :=
  match readExact b d.magic_offset d.magic_len with
  | none => .error .Io
  | some magic =>
    if d.magic_ok magic then
      match readExact b d.offset d.size with
      | none => .error .Io
      | some _ => .ok true
    else
      .ok false

/-- `Superblock::from_bytes` (superblock/src/lib.rs lines 166-186): try
ext4, btrfs, f2fs, xfs, luks2, fat in that order, returning the first
that matches, and `UnknownSuperblock` when none does.  The model returns
the detected `Kind` (the Rust value carries the parsed struct). -/
def Superblock.from_bytes (b : Buf) : Except SbError Kind :=
  match detect_superblock ext4Desc b with
  | .error e => .error e
  | .ok true => .ok .Ext4
  | .ok false =>
  match detect_superblock btrfsDesc b with
  | .error e => .error e
  | .ok true => .ok .Btrfs
  | .ok false =>
  match detect_superblock f2fsDesc b with
  | .error e => .error e
  | .ok true => .ok .F2FS
  | .ok false =>
  match detect_superblock xfsDesc b with
  | .error e => .error e
  | .ok true => .ok .Xfs
  | .ok false =>
  match detect_superblock luks2Desc b with
  | .error e => .error e
  | .ok true => .ok .Luks2
  | .ok false =>
  match detect_superblock fatDesc b with
  | .error e => .error e
  | .ok true => .ok .Fat
  | .ok false => .error .UnknownSuperblock

/-- The number of bytes `Superblock::from_reader` reads: 128 KiB. -/
def readerBudget : Nat := 128 * 1024

/-- `Superblock::from_reader` (superblock/src/lib.rs lines 192-199):
rewind, read exactly 128 KiB into a buffer (an I/O error — including a
reader that yields fewer bytes — propagates), and dispatch on the
buffer. -/
def Superblock.from_reader (r : Buf) : Except SbError Kind :=
  if readerBudget ≤ r.len then
    Superblock.from_bytes { len := readerBudget, byteAt := r.byteAt }
  else
    .error .Io

/-- The ordered format table of the identification claim: the formats as
tried by `from_bytes`, in order. -/
def formats : List (FormatDesc × Kind) :=
  [(ext4Desc, .Ext4), (btrfsDesc, .Btrfs), (f2fsDesc, .F2FS),
    (xfsDesc, .Xfs), (luks2Desc, .Luks2), (fatDesc, .Fat)]

/-- Whether a format's magic bytes are present in the buffer. -/
def magic_matches (d : FormatDesc) (b : Buf) : Bool :=
  match readExact b d.magic_offset d.magic_len with
  | some m => d.magic_ok m
  | none => false

/-- Identification as the claim words it: the first format in the fixed
order whose magic matches, else `UnknownSuperblock`. -/
def spec_from_bytes (b : Buf) : Except SbError Kind :=
  match formats.find? (fun fk => magic_matches fk.1 b) with
  | some fk => .ok fk.2
  | none => .error .UnknownSuperblock

/-! The FAT boot sector, from crates/superblock/src/fat.rs. -/

/-- A little-endian u16 read at `off` (out-of-range bytes read as 0,
which cannot occur in the 90-byte slices the parser receives). -/
def le16 (bytes : List Nat) (off : Nat) : Nat :=
  bytes.getD off 0 + 256 * bytes.getD (off + 1) 0

/-- A little-endian u32 read at `off`. -/
def le32 (bytes : List Nat) (off : Nat) : Nat :=
  bytes.getD off 0 + 256 * bytes.getD (off + 1) 0 +
    65536 * bytes.getD (off + 2) 0 + 16777216 * bytes.getD (off + 3) 0

/-- The `Fat` boot sector struct (fat.rs): the fixed fields followed by
the 54-byte region shared by the FAT16 and FAT32 extended layouts. -/
structure Fat where
  ignored : List Nat
  system_id : List Nat
  sector_size : Nat
  sec_per_clus : Nat
  reserved : Nat
  fats : Nat
  dir_entries : Nat
  sectors : Nat
  media : Nat
  fat_length : Nat
  secs_track : Nat
  heads : Nat
  hidden : Nat
  total_sect : Nat
  shared : List Nat
deriving DecidableEq, Repr

/-- The zerocopy parse of `Fat` from its 90-byte superblock slice:
each field read at its packed offset. -/
def Fat.read_from_bytes (b : List Nat) : Fat :=
  { ignored := b.take 3
    system_id := (b.drop 3).take 8
    sector_size := le16 b 11
    sec_per_clus := b.getD 13 0
    reserved := le16 b 14
    fats := b.getD 16 0
    dir_entries := le16 b 17
    sectors := le16 b 19
    media := b.getD 21 0
    fat_length := le16 b 22
    secs_track := le16 b 24
    heads := le16 b 26
    hidden := le32 b 28
    total_sect := le32 b 32
    shared := (b.drop 36).take 54 }

/-- `Fat16And32Fields` (fat.rs): the extended BPB fields common to FAT16
and FAT32. -/
structure Fat16And32Fields where
  drive_number : Nat
  state : Nat
  signature : Nat
  vol_id : Nat
  vol_label : List Nat
  fs_type : List Nat
deriving DecidableEq, Repr

/-- Parse `Fat16And32Fields` from a byte slice (packed layout: u8, u8,
u8, u32 LE, 11 bytes, 8 bytes). -/
def Fat16And32Fields.read_from_bytes (b : List Nat) : Fat16And32Fields :=
  { drive_number := b.getD 0 0
    state := b.getD 1 0
    signature := b.getD 2 0
    vol_id := le32 b 3
    vol_label := (b.drop 7).take 11
    fs_type := (b.drop 18).take 8 }

/-- `Fat16Fields` (fat.rs): the common fields at offset 0 of the shared
region. -/
structure Fat16Fields where
  common : Fat16And32Fields
deriving DecidableEq, Repr

/-- `Fat32Fields` (fat.rs): 28 bytes of FAT32-specific fields, then the
common fields. -/
structure Fat32Fields where
  fat32_length : Nat
  fat32_flags : Nat
  fat32_version : List Nat
  root_cluster : Nat
  info_sector : Nat
  backup_boot : Nat
  reserved2 : List Nat
  common : Fat16And32Fields
deriving DecidableEq, Repr

/-- `Fat::fat16`: reinterpret the first 26 shared bytes. -/
def Fat.fat16 (f : Fat) : Fat16Fields :=
  { common := Fat16And32Fields.read_from_bytes (f.shared.take 26) }

/-- `Fat::fat32`: reinterpret all 54 shared bytes (packed offsets: u32,
u16, 2 bytes, u32, u16, u16, 12 bytes, then the common fields at 28). -/
def Fat.fat32 (f : Fat) : Fat32Fields :=
  { fat32_length := le32 f.shared 0
    fat32_flags := le16 f.shared 4
    fat32_version := (f.shared.drop 6).take 2
    root_cluster := le32 f.shared 8
    info_sector := le16 f.shared 12
    backup_boot := le16 f.shared 14
    reserved2 := (f.shared.drop 16).take 12
    common := Fat16And32Fields.read_from_bytes (f.shared.drop 28) }

/-- `FatType` from fat.rs. -/
inductive FatType where
  | Fat16
  | Fat32
deriving DecidableEq, Repr

/-- `Fat::fat_type` (fat.rs lines 123-130): FAT32 when the 16-bit
sectors-per-FAT field is zero and the 32-bit FAT32 length is non-zero,
otherwise FAT16 (the Linux kernel's rule). -/
def Fat.fat_type (f : Fat) : FatType :=
  if f.fat_length == 0 && f.fat32.fat32_length != 0 then .Fat32 else .Fat16

/-- `vol_id` (fat.rs): the Rust code formats the 32-bit volume id as the
string "XXXX-XXXX" from its high and low 16-bit halves; the model keeps
the two halves. -/
def vol_id (v : Nat) : Nat × Nat :=
  (v / 65536, v % 65536)

/-- `vol_label` (fat.rs): the 11 label bytes with trailing spaces
stripped (the Rust code additionally decodes them as lossy UTF-8). -/
def vol_label (l : List Nat) : List Nat :=
  (l.reverse.dropWhile (fun c => c == 0x20)).reverse

/-- `Fat::uuid`: the volume id of the overlay selected by `fat_type`. -/
def Fat.uuid (f : Fat) : Nat × Nat :=
  match f.fat_type with
  | .Fat16 => vol_id f.fat16.common.vol_id
  | .Fat32 => vol_id f.fat32.common.vol_id

/-- `Fat::label`: the volume label of the overlay selected by
`fat_type`. -/
def Fat.label (f : Fat) : List Nat :=
  match f.fat_type with
  | .Fat16 => vol_label f.fat16.common.vol_label
  | .Fat32 => vol_label f.fat32.common.vol_label

/-! Concrete instances used to evaluate the development on real inputs. -/

/-- A fresh planner for an empty 16 MiB disk. -/
def examplePlanner : Planner := Planner.new [] (16 * MiB)

/-- Two exact requests on a specific region; the second has size zero, so
the planner rejects it after the first was already planned. -/
def exactFailureStrategy : Strategy :=
  { allocation := .SpecificRegion (Region.new MiB (10 * MiB))
    requests :=
      [ { size := .Exact MiB, attributes := none }
      , { size := .Exact 0, attributes := none } ] }

/-- Two minimum-zero flexible requests on a specific 6 MiB region. -/
def fairShareStrategy : Strategy :=
  { allocation := .SpecificRegion (Region.new MiB (7 * MiB))
    requests :=
      [ { size := .AtLeast 0, attributes := none }
      , { size := .AtLeast 0, attributes := none } ] }

/-- A writer whose planner was built for a 10 MiB disk (one valid planned
partition) while the observed device size is 20 MiB. -/
def sizeChangedWriter : DiskWriter :=
  { device_size := 20 * MiB
    planner := ((Planner.new [] (10 * MiB)).plan_add_partition MiB (2 * MiB)).1 }

/-- An empty byte buffer. -/
def emptyBuf : Buf := { len := 0, byteAt := fun _ => 0 }

/-- A 128 KiB buffer of zeros. -/
def zeroBuf : Buf := { len := readerBudget, byteAt := fun _ => 0 }

/-- A 512-byte reader holding a minimal FAT boot sector: the `0x55 0xAA`
magic at bytes 0x1FE and 0x1FF. -/
def fatBoot : Buf :=
  { len := 512
    byteAt := fun i => if i = 0x1FE then 0x55 else if i = 0x1FF then 0xAA else 0 }

/-- A journal that adds id 1, deletes it, and adds id 1 again: the delete
makes the second add legal for the writer validation. -/
def addDeleteAddWriter : DiskWriter :=
  { device_size := 16 * MiB
    planner :=
      { Planner.new [] (16 * MiB) with
          changes :=
            [ .AddPartition MiB (2 * MiB) 1 none
            , .DeletePartition 1 0 (Region.new MiB (2 * MiB)) none
            , .AddPartition MiB (2 * MiB) 1 none ] } }

/-- A journal with two adds of id 1 and no delete in between. -/
def dupWriter : DiskWriter :=
  { device_size := 16 * MiB
    planner :=
      { Planner.new [] (16 * MiB) with
          changes :=
            [ .AddPartition MiB (2 * MiB) 1 none
            , .AddPartition (2 * MiB) (3 * MiB) 1 none ] } }

/-! Helper lemmas about lists, the rewind function and `undo`. -/

theorem rewind_nil (l : List Region) : rewind [] l = l := rfl

theorem rewind_append (cs ds : List Change) (l : List Region) :
    rewind (cs ++ ds) l = rewind cs (rewind ds l) := by
  simp [rewind, List.foldr_append]

theorem rewind_concat (cs : List Change) (c : Change) (l : List Region) :
    rewind (cs ++ [c]) l = rewind cs (reverseChange c l) := by
  simp [rewind, List.foldr_append]

theorem insertAt_eraseIdx :
    ∀ (l : List Region) (i : Nat) (r : Region),
      l[i]? = some r → insertAt i r (l.eraseIdx i) = l := by
  intro l
  induction l with
  | nil => intro i r h; simp at h
  | cons a tl ih =>
    intro i r h
    cases i with
    | zero =>
      simp at h
      simp [List.eraseIdx, insertAt, h]
    | succ i =>
      simp at h
      simp [List.eraseIdx, insertAt, ih i r h]

theorem mem_insertSorted (x r : Region) :
    ∀ (l : List Region), x ∈ insertSorted r l ↔ x = r ∨ x ∈ l := by
  intro l
  induction l with
  | nil => simp [insertSorted]
  | cons a tl ih =>
    by_cases h : r.start ≤ a.start
    · simp [insertSorted, h]
    · simp [insertSorted, h, ih]
      tauto

theorem eraseP_insertSorted (q : Region → Bool) (r : Region)
    (hq : q r = true) :
    ∀ (l : List Region), (∀ x ∈ l, q x = false) →
      (insertSorted r l).eraseP q = l := by
  intro l
  induction l with
  | nil => simp [insertSorted, List.eraseP_cons, hq]
  | cons a tl ih =>
    intro h
    by_cases hcmp : r.start ≤ a.start
    · simp [insertSorted, hcmp, List.eraseP_cons, hq]
    · have ha : q a = false := h a (by simp)
      simp [insertSorted, hcmp, List.eraseP_cons, ha]
      exact ih (fun x hx => h x (by simp [hx]))

theorem mem_eraseIdx (x : Region) :
    ∀ (l : List Region) (i : Nat), x ∈ l.eraseIdx i → x ∈ l := by
  intro l
  induction l with
  | nil => intro i h; simp [List.eraseIdx] at h
  | cons a tl ih =>
    intro i h
    cases i with
    | zero => simp [List.eraseIdx] at h; simp [h]
    | succ i =>
      simp [List.eraseIdx] at h
      rcases h with h | h
      · simp [h]
      · simp [ih i h]

theorem mem_sortByStart (x : Region) :
    ∀ (l : List Region), x ∈ sortByStart l ↔ x ∈ l := by
  intro l
  induction l with
  | nil => simp [sortByStart]
  | cons a tl ih =>
    simp only [sortByStart, List.foldr_cons]
    rw [show List.foldr insertSorted [] tl = sortByStart tl from rfl] at *
    rw [mem_insertSorted, ih]
    simp

theorem maxPartitionId_le (r : Region) (i : Nat) :
    ∀ (l : List Region), r ∈ l → r.partition_id = some i →
      i ≤ maxPartitionId l := by
  intro l
  induction l with
  | nil => intro h; simp at h
  | cons a tl ih =>
    intro hmem hid
    have hm : maxPartitionId (a :: tl) =
        Nat.max (a.partition_id.getD 0) (maxPartitionId tl) := rfl
    rcases List.mem_cons.mp hmem with h | h
    · subst h
      rw [hm, hid]
      exact Nat.le_max_left _ _
    · exact Nat.le_trans (ih h hid) (by rw [hm]; exact Nat.le_max_right _ _)

theorem rewind_cons (c : Change) (cs : List Change) (l : List Region) :
    rewind (c :: cs) l = reverseChange c (rewind cs l) := rfl

theorem rewind_delAll :
    ∀ (l : List Region),
      rewind (l.map (fun r =>
        Change.DeletePartition (r.partition_id.getD 0) 0 r none)) [] = l := by
  intro l
  induction l with
  | nil => rfl
  | cons a tl ih =>
    simp only [List.map_cons, rewind_cons, ih]
    rfl

theorem undoN_spec :
    ∀ (n : Nat) (p : Planner), p.changes.length = n →
      (Planner.undoN n p).changes = [] ∧
      (Planner.undoN n p).current_layout = rewind p.changes p.current_layout ∧
      (Planner.undoN n p).original_layout = p.original_layout := by
  intro n
  induction n with
  | zero =>
    intro p h
    have : p.changes = [] := List.length_eq_zero.mp h
    simp [Planner.undoN, this, rewind_nil]
  | succ n ih =>
    intro p h
    rcases List.eq_nil_or_concat p.changes with hnil | ⟨L, c, hLc⟩
    · rw [hnil] at h; simp at h
    · rw [List.concat_eq_append] at hLc
      have hundo : p.undo =
          { p with
              changes := L
              current_layout := reverseChange c p.current_layout
              wipe_disk := if L.isEmpty then false else p.wipe_disk } := by
        simp [Planner.undo, hLc, List.getLast?_concat, List.dropLast_concat]
      have hlen : L.length = n := by
        rw [hLc] at h; simp at h; omega
      have := ih p.undo (by rw [hundo]; exact hlen)
      rcases this with ⟨h1, h2, h3⟩
      refine ⟨h1, ?_, ?_⟩
      · show (Planner.undoN n p.undo).current_layout = _
        rw [h2, hundo]
        simp [hLc, rewind_concat]
      · show (Planner.undoN n p.undo).original_layout = _
        rw [h3, hundo]

theorem undoAll_spec (p : Planner) :
    (p.undoAll).changes = [] ∧
    (p.undoAll).current_layout = rewind p.changes p.current_layout ∧
    (p.undoAll).original_layout = p.original_layout :=
  undoN_spec p.changes.length p rfl

theorem undoAll_has_changes (p : Planner) :
    (p.undoAll).has_changes = false := by
  have h := (undoAll_spec p).1
  simp [Planner.has_changes, h]

/-! Preservation of the journal-coherence invariant by every planner
operation. -/

theorem inv_plan_add (p : Planner) (s e : Nat)
    (a : Option PartitionAttributes) (h : PlannerInv p) :
    PlannerInv (p.plan_add_partition_with_attributes s e a).1 := by
  have hshape : (p.plan_add_partition_with_attributes s e a).1 = p ∨
      ∃ s2 e2, (p.plan_add_partition_with_attributes s e a).1 =
        { p with
            current_layout :=
              insertSorted
                { start := s2, end_ := e2,
                  partition_id := some p.next_partition_id }
                p.current_layout
            changes := p.changes ++
              [.AddPartition s2 e2 p.next_partition_id a]
            next_partition_id := p.next_partition_id + 1 } := by
    unfold Planner.plan_add_partition_with_attributes
    dsimp only
    split
    · left; rfl
    · split
      · left; rfl
      · split
        · left; rfl
        · right; exact ⟨_, _, rfl⟩
  rcases hshape with h0 | ⟨s2, e2, h0⟩
  · rw [h0]; exact h
  · rw [h0]
    constructor
    · show rewind (p.changes ++ [Change.AddPartition s2 e2 p.next_partition_id a])
        (insertSorted
          { start := s2, end_ := e2, partition_id := some p.next_partition_id }
          p.current_layout) = p.original_layout
      rw [rewind_concat]
      have herase :
          reverseChange (Change.AddPartition s2 e2 p.next_partition_id a)
            (insertSorted
              { start := s2, end_ := e2,
                partition_id := some p.next_partition_id }
              p.current_layout) = p.current_layout := by
        show List.eraseP _ _ = _
        apply eraseP_insertSorted
        · simp
        · intro x hx
          simp only [beq_eq_false_iff_ne, ne_eq]
          intro heq
          have := h.2 x hx p.next_partition_id heq
          omega
      rw [herase]
      exact h.1
    · intro r hr i hi
      rcases (mem_insertSorted r _ p.current_layout).mp hr with h1 | h1
      · subst h1
        simp at hi
        show i < p.next_partition_id + 1
        omega
      · have := h.2 r h1 i hi
        show i < p.next_partition_id + 1
        omega

theorem inv_plan_delete (p : Planner) (id : Nat) (h : PlannerInv p) :
    PlannerInv (p.plan_delete_partition id).1 := by
  unfold Planner.plan_delete_partition
  split
  · exact h
  · next i hfind =>
    split
    · exact h
    · next r hget =>
      constructor
      · show rewind (p.changes ++ [Change.DeletePartition id i r none])
          (p.current_layout.eraseIdx i) = p.original_layout
        rw [rewind_concat]
        show rewind p.changes (insertAt i r (p.current_layout.eraseIdx i)) = _
        rw [insertAt_eraseIdx _ _ _ hget]
        exact h.1
      · intro x hx j hj
        exact h.2 x (mem_eraseIdx x _ i hx) j hj

theorem inv_plan_initialize (p : Planner) (h : PlannerInv p) :
    PlannerInv p.plan_initialize_disk.1 := by
  constructor
  · show rewind (p.changes ++ p.current_layout.map
        (fun r => Change.DeletePartition (r.partition_id.getD 0) 0 r none))
      [] = p.original_layout
    rw [rewind_append, rewind_delAll]
    exact h.1
  · intro r hr i hi
    simp [Planner.plan_initialize_disk] at hr

theorem inv_new (original : List Region) (size : Nat) :
    PlannerInv (Planner.new original size) := by
  constructor
  · rfl
  · intro r hr i hi
    have hmem : r ∈ original := (mem_sortByStart r original).mp hr
    have := maxPartitionId_le r i original hmem hi
    show i < maxPartitionId original + 1
    omega

theorem inv_applyOp (p : Planner) (op : PlannerOp) (h : PlannerInv p) :
    PlannerInv (applyOp p op) := by
  cases op with
  | initDisk => exact inv_plan_initialize p h
  | add s e => exact inv_plan_add p s e none h
  | addWithAttributes s e a => exact inv_plan_add p s e a h
  | delete id => exact inv_plan_delete p id h

theorem inv_runOps :
    ∀ (ops : List PlannerOp) (p : Planner), PlannerInv p →
      PlannerInv (runOps p ops) := by
  intro ops
  induction ops with
  | nil => intro p h; exact h
  | cons op rest ih => intro p h; exact ih (applyOp p op) (inv_applyOp p op h)

theorem applyOp_original (p : Planner) (op : PlannerOp) :
    (applyOp p op).original_layout = p.original_layout := by
  cases op with
  | initDisk => rfl
  | add s e =>
    show ((p.plan_add_partition_with_attributes s e none).1).original_layout = _
    unfold Planner.plan_add_partition_with_attributes
    dsimp only
    split
    · rfl
    · split
      · rfl
      · split <;> rfl
  | addWithAttributes s e a =>
    show ((p.plan_add_partition_with_attributes s e a).1).original_layout = _
    unfold Planner.plan_add_partition_with_attributes
    dsimp only
    split
    · rfl
    · split
      · rfl
      · split <;> rfl
  | delete id =>
    show ((p.plan_delete_partition id).1).original_layout = _
    unfold Planner.plan_delete_partition
    split
    · rfl
    · split <;> rfl

theorem runOps_original :
    ∀ (ops : List PlannerOp) (p : Planner),
      (runOps p ops).original_layout = p.original_layout := by
  intro ops
  induction ops with
  | nil => intro p; rfl
  | cons op rest ih =>
    intro p
    show (runOps (applyOp p op) rest).original_layout = _
    rw [ih, applyOp_original]

/-! Helper lemmas for the writer validation scan. -/

theorem validate_go_ok_iff :
    ∀ (cs : List Change) (used : List Nat),
      validate_go used cs = .ok () ↔
        ∀ k s e id a, cs[k]? = some (.AddPartition s e id a) →
          id ∉ live_ids used (cs.take k) := by
  intro cs
  induction cs with
  | nil =>
    intro used
    simp [validate_go]
  | cons c rest ih =>
    intro used
    cases c with
    | AddPartition s e id a =>
      by_cases hid : id ∈ used
      · simp only [validate_go, if_pos hid]
        constructor
        · intro h; exact absurd h (by simp)
        · intro h
          exact absurd hid (by simpa [live_ids] using h 0 s e id a (by simp))
      · simp only [validate_go, if_neg hid]
        rw [ih (id :: used)]
        constructor
        · intro h k
          cases k with
          | zero =>
            intro s2 e2 id2 a2 hk
            simp at hk
            have hid2 : id2 = id := hk.2.2.1.symm
            subst hid2
            simpa [live_ids] using hid
          | succ k =>
            intro s2 e2 id2 a2 hk
            have := h k s2 e2 id2 a2 (by simpa using hk)
            simpa [live_ids, if_neg hid] using this
        · intro h k s2 e2 id2 a2 hk
          have := h (k + 1) s2 e2 id2 a2 (by simpa using hk)
          simpa [live_ids, if_neg hid] using this
    | DeletePartition id idx r a =>
      simp only [validate_go]
      rw [ih (used.erase id)]
      constructor
      · intro h k
        cases k with
        | zero => intro s2 e2 id2 a2 hk; simp at hk
        | succ k =>
          intro s2 e2 id2 a2 hk
          have := h k s2 e2 id2 a2 (by simpa using hk)
          simpa [live_ids] using this
      · intro h k s2 e2 id2 a2 hk
        have := h (k + 1) s2 e2 id2 a2 (by simpa using hk)
        simpa [live_ids] using this

theorem validate_go_error :
    ∀ (cs : List Change) (used : List Nat) (err : WriteError),
      validate_go used cs = .error err →
        ∃ id, err = .DuplicatePartitionId id ∧
          ∃ k s e a, cs[k]? = some (.AddPartition s e id a) ∧
            id ∈ live_ids used (cs.take k) := by
  intro cs
  induction cs with
  | nil => intro used err h; simp [validate_go] at h
  | cons c rest ih =>
    intro used err h
    cases c with
    | AddPartition s e id a =>
      by_cases hid : id ∈ used
      · simp only [validate_go, if_pos hid] at h
        refine ⟨id, ?_, 0, s, e, a, by simp, by simpa [live_ids] using hid⟩
        cases h
        rfl
      · simp only [validate_go, if_neg hid] at h
        obtain ⟨id2, herr, k, s2, e2, a2, hk, hmem⟩ := ih (id :: used) err h
        exact ⟨id2, herr, k + 1, s2, e2, a2, by simpa using hk,
          by simpa [live_ids, if_neg hid] using hmem⟩
    | DeletePartition idd idx r a =>
      simp only [validate_go] at h
      obtain ⟨id2, herr, k, s2, e2, a2, hk, hmem⟩ := ih (used.erase idd) err h
      exact ⟨id2, herr, k + 1, s2, e2, a2, by simpa using hk,
        by simpa [live_ids] using hmem⟩

/-! Helper lemmas for alignment. -/

theorem align_up_result_aligned (v a : Nat) (h : 0 < a) :
    align_up v a % a = 0 := by
  unfold align_up
  dsimp only
  by_cases h0 : v % a = 0
  · rw [if_pos h0]; exact h0
  · have hle : v % a ≤ v := Nat.mod_le v a
    have hdm := Nat.div_add_mod v a
    have hsub : v - v % a = a * (v / a) := by omega
    by_cases h1 : v % a > a / 2
    · rw [if_neg h0, if_pos h1]
      have hlt : v % a < a := Nat.mod_lt v h
      have heq : v + (a - v % a) = (v - v % a) + a := by omega
      rw [heq, Nat.add_mod_right, hsub, Nat.mul_mod_right]
    · rw [if_neg h0, if_neg h1, hsub, Nat.mul_mod_right]

theorem align_up_of_aligned (w a : Nat) (h : w % a = 0) :
    align_up w a = w := by
  simp [align_up, h]

theorem align_down_of_aligned (w a : Nat) (h : w % a = 0) :
    align_down w a = w := by
  simp [align_down, h]

/-! Helper lemmas for the superblock identifier. -/

theorem readExact_of_le (b : Buf) (off n : Nat) (h : off + n ≤ b.len) :
    readExact b off n = some (byteSlice b off n) := by
  simp [readExact, h]

theorem detect_of_le (d : FormatDesc) (b : Buf)
    (h1 : d.magic_offset + d.magic_len ≤ b.len)
    (h2 : d.offset + d.size ≤ b.len) :
    detect_superblock d b =
      .ok (d.magic_ok (byteSlice b d.magic_offset d.magic_len)) := by
  unfold detect_superblock
  rw [readExact_of_le b _ _ h1]
  by_cases hm : d.magic_ok (byteSlice b d.magic_offset d.magic_len)
  · simp [hm, readExact_of_le b _ _ h2]
  · simp [hm]

theorem magic_matches_of_le (d : FormatDesc) (b : Buf)
    (h1 : d.magic_offset + d.magic_len ≤ b.len) :
    magic_matches d b = d.magic_ok (byteSlice b d.magic_offset d.magic_len) := by
  simp [magic_matches, readExact_of_le b _ _ h1]

/-! Helper lemmas for list indexing used by the FAT boot sector. -/

theorem getD_drop (l : List Nat) :
    ∀ (n k : Nat), (l.drop n).getD k 0 = l.getD (n + k) 0 := by
  induction l with
  | nil => intro n k; simp
  | cons a tl ih =>
    intro n k
    cases n with
    | zero => simp
    | succ n =>
      show (tl.drop n).getD k 0 = (a :: tl).getD (n + 1 + k) 0
      rw [ih n k]
      have : n + 1 + k = (n + k) + 1 := by omega
      rw [this]
      rfl

theorem getD_take (l : List Nat) :
    ∀ (n k : Nat), (l.take n).getD k 0 = if k < n then l.getD k 0 else 0 := by
  induction l with
  | nil => intro n k; simp
  | cons a tl ih =>
    intro n k
    cases n with
    | zero => simp
    | succ n =>
      cases k with
      | zero => simp
      | succ k =>
        show (tl.take n).getD k 0 = _
        rw [ih n k]
        by_cases h : k < n
        · rw [if_pos h, if_pos (by omega)]
          rfl
        · rw [if_neg h, if_neg (by omega)]

/-! Claim theorems. -/

/-- C1 (counterexample): strategy application is not atomic.  On a fresh
planner (no changes) the strategy with requests `Exact(1 MiB)` and
`Exact(0)` fails in the exact pass — after the first exact request was
already planned — and returns with `has_changes()` true, different from
its pre-call value. -/
theorem strategy_apply_exact_pass_leaves_changes :
    (Strategy.apply exactFailureStrategy examplePlanner).2 =
      .error (.InvalidSize (2 * MiB) (2 * MiB)) ∧
    examplePlanner.has_changes = false ∧
    (Strategy.apply exactFailureStrategy examplePlanner).1.has_changes = true := by
  refine ⟨by decide, by decide, by decide⟩

/-- C1 (amended): only the flexible pass of `Strategy::apply` is atomic.
Whenever the flexible pass returns an error — a minimum that no longer
fits, or the planner rejecting a computed interval — it has rewound the
planner by undoing until `has_changes()` is false (which also discards
changes that predate the `apply` call).  Errors from target selection,
the precheck, or the exact pass return without this rewind. -/
theorem strategy_flexible_error_rewinds :
    ∀ (flex : List (Nat × Nat × Option Nat)) (s : Strategy) (p : Planner)
      (current remaining : Nat) (e : PlanError),
      (flexPass s p flex current remaining).2 = .error e →
      (flexPass s p flex current remaining).1.has_changes = false := by
  intro flex
  induction flex with
  | nil =>
    intro s p current remaining e h
    simp [flexPass] at h
  | cons entry rest ih =>
    intro s p current remaining e h
    obtain ⟨idx, minv, maxo⟩ := entry
    by_cases hmin : minv > remaining
    · simp only [flexPass, if_pos hmin]
      exact undoAll_has_changes p
    · rcases hres : p.plan_add_partition_with_attributes current
          (current + flexible_size minv maxo remaining rest.length)
          ((s.requests[idx]?).bind fun req => req.attributes) with ⟨p2, res⟩
      cases res with
      | ok v =>
        have hh : flexPass s p ((idx, minv, maxo) :: rest) current remaining =
            flexPass s p2 rest
              (current + flexible_size minv maxo remaining rest.length)
              (remaining - flexible_size minv maxo remaining rest.length) := by
          simp only [flexPass, if_neg hmin, hres]
        rw [hh] at h ⊢
        exact ih s p2 _ _ e h
      | error e2 =>
        have hh : flexPass s p ((idx, minv, maxo) :: rest) current remaining =
            (p2.undoAll, .error e2) := by
          simp only [flexPass, if_neg hmin, hres]
        rw [hh]
        exact undoAll_has_changes p2

/-- C1 witness: a concrete flexible pass whose minimum exceeds the
remaining space errors out with the planner fully rewound. -/
theorem strategy_flexible_error_rewinds_witness :
    (flexPass exactFailureStrategy examplePlanner [(0, 10 * MiB, none)]
        MiB (5 * MiB)).2 = .error (.RegionOutOfBounds MiB (11 * MiB)) ∧
    (flexPass exactFailureStrategy examplePlanner [(0, 10 * MiB, none)]
        MiB (5 * MiB)).1.has_changes = false :=
  ⟨by decide,
    strategy_flexible_error_rewinds [(0, 10 * MiB, none)]
      exactFailureStrategy examplePlanner MiB (5 * MiB)
      (.RegionOutOfBounds MiB (11 * MiB)) (by decide)⟩

/-- C2 (counterexample): with two flexible requests of minimum 0 over a
6 MiB target, the first (k = 2 counting itself) is allocated
`0 + 6 MiB / 2 = 3 MiB` — the code divides by k, not by k + 1 as the
claim states, which would give 2 MiB. -/
theorem strategy_fair_share_counterexample :
    (Strategy.apply fairShareStrategy examplePlanner).2 = .ok () ∧
    (Strategy.apply fairShareStrategy examplePlanner).1.current_layout =
      [ { start := MiB, end_ := 4 * MiB, partition_id := some 1 }
      , { start := 4 * MiB, end_ := 7 * MiB, partition_id := some 2 } ] ∧
    flexible_size 0 none (6 * MiB) 1 = 3 * MiB ∧
    0 + 6 * MiB / (2 + 1) = 2 * MiB ∧
    (3 : Nat) * MiB ≠ 2 * MiB := by
  refine ⟨by decide, by decide, by decide, by decide, by decide⟩

/-- C2 (amended): in the flexible pass, with k the number of flexible
requests not yet allocated (counting the current one), every flexible
request except the last is allocated `min + floor(remaining / k)` bytes,
clamped above by its max when set; the last (k = 1) is allocated all of
`remaining`, clamped above by its max when set and below by its min.
The code passes `k - 1` (the count after the loop decrement). -/
theorem flexible_size_fair_share (min : Nat) (max_opt : Option Nat)
    (remaining k : Nat) (h : 1 ≤ k) :
    flexible_size min max_opt remaining (k - 1) =
      spec_flexible_size min max_opt remaining k := by
  cases k with
  | zero => omega
  | succ k2 =>
    cases k2 with
    | zero => rfl
    | succ k3 =>
      show flexible_size min max_opt remaining (k3 + 1) = _
      unfold flexible_size spec_flexible_size
      rw [if_neg (by omega), if_neg (by omega)]

/-- C2 witness: the fair-share formula at k = 2 (two flexible requests
left, counting the current one). -/
theorem flexible_size_fair_share_witness :
    (1 : Nat) ≤ 2 ∧
    flexible_size 0 none (6 * MiB) (2 - 1) =
      spec_flexible_size 0 none (6 * MiB) 2 :=
  ⟨by decide, flexible_size_fair_share 0 none (6 * MiB) 2 (by decide)⟩

/-- C3: planner undo is a full round trip.  For every operation sequence
on a freshly constructed planner, undoing until `has_changes()` is false
restores `current_layout` to the original layout captured at
construction. -/
theorem planner_undo_roundtrip (original : List Region) (size : Nat)
    (ops : List PlannerOp)
    (_h : (runOps (Planner.new original size) ops).has_changes = true) :
    ((runOps (Planner.new original size) ops).undoAll).current_layout =
      (Planner.new original size).original_layout ∧
    ((runOps (Planner.new original size) ops).undoAll).has_changes = false := by
  have hinv := inv_runOps ops (Planner.new original size) (inv_new original size)
  have hspec := undoAll_spec (runOps (Planner.new original size) ops)
  refine ⟨?_, undoAll_has_changes _⟩
  rw [hspec.2.1, hinv.1, runOps_original]

/-- C3 witness: one add on a fresh 16 MiB planner leaves a change, and
the round trip restores the empty original layout. -/
theorem planner_undo_roundtrip_witness :
    (runOps (Planner.new [] (16 * MiB)) [.add MiB (2 * MiB)]).has_changes
        = true ∧
    ((runOps (Planner.new [] (16 * MiB))
        [.add MiB (2 * MiB)]).undoAll).current_layout =
      (Planner.new [] (16 * MiB)).original_layout ∧
    ((runOps (Planner.new [] (16 * MiB))
        [.add MiB (2 * MiB)]).undoAll).has_changes = false :=
  ⟨by decide,
    (planner_undo_roundtrip [] (16 * MiB) [.add MiB (2 * MiB)] (by decide)).1,
    (planner_undo_roundtrip [] (16 * MiB) [.add MiB (2 * MiB)] (by decide)).2⟩

/-- C6: snap-to-nearer alignment.  For alignment a > 0: `align_up`
returns v when aligned, rounds down when the remainder is at most a / 2,
and rounds up otherwise; `align_down` returns v when aligned, rounds
down when the remainder is below a / 2, and rounds up when the remainder
is at least a / 2 (a / 2 is integer division). -/
theorem align_snap_to_nearer (v a : Nat) (h : 0 < a) :
    (v % a = 0 → align_up v a = v ∧ align_down v a = v) ∧
    (v % a ≠ 0 → v % a ≤ a / 2 → align_up v a = v - v % a) ∧
    (v % a > a / 2 → align_up v a = v + (a - v % a)) ∧
    (v % a ≠ 0 → v % a < a / 2 → align_down v a = v - v % a) ∧
    (v % a ≠ 0 → a / 2 ≤ v % a → align_down v a = v + (a - v % a)) := by
  refine ⟨?_, ?_, ?_, ?_, ?_⟩
  · intro h0
    exact ⟨align_up_of_aligned v a h0, align_down_of_aligned v a h0⟩
  · intro h0 h1
    simp [align_up, h0, show ¬v % a > a / 2 by omega]
  · intro h1
    have h0 : v % a ≠ 0 := by
      intro h0
      rw [h0] at h1
      omega
    simp [align_up, h0, h1]
  · intro h0 h1
    simp [align_down, h0, h1]
  · intro h0 h1
    simp [align_down, h0, show ¬v % a < a / 2 by omega]

/-- C6 witness: remainder 1 of 4 rounds `align_up 5 4` down to 4, and
remainder 2 of 4 rounds `align_down 6 4` up to 8. -/
theorem align_snap_to_nearer_witness :
    (0 : Nat) < 4 ∧ align_up 5 4 = 5 - 5 % 4 ∧
      align_down 6 4 = 6 + (4 - 6 % 4) :=
  ⟨by decide,
    (align_snap_to_nearer 5 4 (by decide)).2.1 (by decide) (by decide),
    (align_snap_to_nearer 6 4 (by decide)).2.2.2.2 (by decide) (by decide)⟩

/-- C9: alignment snapping is idempotent.  `align_up` lands on a
multiple of the alignment, re-snapping it either way is the identity,
and `align_down` fixes every multiple of the alignment. -/
theorem alignment_snapping_idempotent (v a : Nat) (h : 0 < a) :
    align_up (align_up v a) a = align_up v a ∧
    (∀ w, w % a = 0 → align_down w a = w) ∧
    align_down (align_up v a) a = align_up v a := by
  have hm := align_up_result_aligned v a h
  exact ⟨align_up_of_aligned _ a hm,
    fun w hw => align_down_of_aligned w a hw,
    align_down_of_aligned _ a hm⟩

/-- C9 witness: idempotence at v = 5, a = 4, and `align_down` fixing the
multiple 8. -/
theorem alignment_snapping_idempotent_witness :
    (0 : Nat) < 4 ∧ align_up (align_up 5 4) 4 = align_up 5 4 ∧
    align_down 8 4 = 8 ∧ align_down (align_up 5 4) 4 = align_up 5 4 :=
  ⟨by decide,
    (alignment_snapping_idempotent 5 4 (by decide)).1,
    (alignment_snapping_idempotent 5 4 (by decide)).2.1 8 (by decide),
    (alignment_snapping_idempotent 5 4 (by decide)).2.2⟩

/-- C4 (counterexample): `from_bytes` does not return `UnknownSuperblock`
on every non-matching buffer.  On the empty buffer no format's magic
matches, yet the very first magic read fails and the function returns an
I/O error instead. -/
theorem from_bytes_short_buffer_io_error :
    Superblock.from_bytes emptyBuf = .error .Io ∧
    SbError.Io ≠ SbError.UnknownSuperblock ∧
    (∀ d ∈ [ext4Desc, btrfsDesc, f2fsDesc, xfsDesc, luks2Desc, fatDesc],
      magic_matches d emptyBuf = false) := by
  refine ⟨by decide, by decide, by decide⟩

/-- C4 (amended): for every buffer of at least 128 KiB (so that every
magic and superblock read succeeds — shorter buffers can fail with an
I/O error first), `from_bytes` tries ext4, btrfs, f2fs, xfs, luks2, fat
in that fixed order and returns the first whose magic matches (the
bodies are plain-old-data structs, so a matched body always parses);
when none matches it returns `UnknownSuperblock`, never a partial
success. -/
theorem from_bytes_ordered_first_match (b : Buf)
    (h : readerBudget ≤ b.len) :
    Superblock.from_bytes b = spec_from_bytes b := by
  have hb : 131072 ≤ b.len := by simpa [readerBudget] using h
  have e1 := detect_of_le ext4Desc b (by simp [ext4Desc]; omega)
    (by simp [ext4Desc]; omega)
  have e2 := detect_of_le btrfsDesc b (by simp [btrfsDesc]; omega)
    (by simp [btrfsDesc]; omega)
  have e3 := detect_of_le f2fsDesc b (by simp [f2fsDesc]; omega)
    (by simp [f2fsDesc]; omega)
  have e4 := detect_of_le xfsDesc b (by simp [xfsDesc]; omega)
    (by simp [xfsDesc]; omega)
  have e5 := detect_of_le luks2Desc b (by simp [luks2Desc]; omega)
    (by simp [luks2Desc]; omega)
  have e6 := detect_of_le fatDesc b (by simp [fatDesc]; omega)
    (by simp [fatDesc]; omega)
  have m1 := magic_matches_of_le ext4Desc b (by simp [ext4Desc]; omega)
  have m2 := magic_matches_of_le btrfsDesc b (by simp [btrfsDesc]; omega)
  have m3 := magic_matches_of_le f2fsDesc b (by simp [f2fsDesc]; omega)
  have m4 := magic_matches_of_le xfsDesc b (by simp [xfsDesc]; omega)
  have m5 := magic_matches_of_le luks2Desc b (by simp [luks2Desc]; omega)
  have m6 := magic_matches_of_le fatDesc b (by simp [fatDesc]; omega)
  cases h1 : ext4Desc.magic_ok
      (byteSlice b ext4Desc.magic_offset ext4Desc.magic_len) <;>
  cases h2 : btrfsDesc.magic_ok
      (byteSlice b btrfsDesc.magic_offset btrfsDesc.magic_len) <;>
  cases h3 : f2fsDesc.magic_ok
      (byteSlice b f2fsDesc.magic_offset f2fsDesc.magic_len) <;>
  cases h4 : xfsDesc.magic_ok
      (byteSlice b xfsDesc.magic_offset xfsDesc.magic_len) <;>
  cases h5 : luks2Desc.magic_ok
      (byteSlice b luks2Desc.magic_offset luks2Desc.magic_len) <;>
  cases h6 : fatDesc.magic_ok
      (byteSlice b fatDesc.magic_offset fatDesc.magic_len) <;>
  simp [Superblock.from_bytes, spec_from_bytes, formats,
    e1, e2, e3, e4, e5, e6, m1, m2, m3, m4, m5, m6, h1, h2, h3, h4, h5, h6,
    List.find?]

/-- C4 witness: a 128 KiB zero buffer matches no format, and the ordered
scan agrees with `from_bytes` on it (both `UnknownSuperblock`). -/
theorem from_bytes_ordered_first_match_witness :
    readerBudget ≤ zeroBuf.len ∧
    Superblock.from_bytes zeroBuf = spec_from_bytes zeroBuf :=
  ⟨by decide, from_bytes_ordered_first_match zeroBuf (by decide)⟩

/-- C5: the writer validation fails with `DuplicatePartitionId` exactly
when scanning the journal in order with a live id set (adds insert,
deletes remove) meets an add whose id is already live; a journal with a
delete between two adds of the same id passes. -/
theorem validate_changes_duplicate_live_semantics :
    (∀ w : DiskWriter,
      (w.validate_changes = .ok () ↔
        ∀ k s e id a,
          w.planner.changes[k]? = some (.AddPartition s e id a) →
            id ∉ live_ids [] (w.planner.changes.take k)) ∧
      (∀ err, w.validate_changes = .error err →
        ∃ id, err = .DuplicatePartitionId id ∧
          ∃ k s e a,
            w.planner.changes[k]? = some (.AddPartition s e id a) ∧
              id ∈ live_ids [] (w.planner.changes.take k))) ∧
    DiskWriter.validate_changes addDeleteAddWriter = .ok () := by
  refine ⟨fun w => ⟨validate_go_ok_iff w.planner.changes [],
    fun err herr => validate_go_error w.planner.changes [] err herr⟩, by decide⟩

/-- C5 witness: the journal with two adds of id 1 errors, and the error
names the duplicated live id. -/
theorem validate_changes_duplicate_live_semantics_witness :
    ∃ id, WriteError.DuplicatePartitionId 1 = .DuplicatePartitionId id ∧
      ∃ k s e a,
        dupWriter.planner.changes[k]? = some (.AddPartition s e id a) ∧
          id ∈ live_ids [] (dupWriter.planner.changes.take k) :=
  (validate_changes_duplicate_live_semantics.1 dupWriter).2
    (.DuplicatePartitionId 1) (by decide)

/-- C7 (counterexample): the writer validation does not fail when the
observed device size differs from the size the planner was built with —
a planner for a 10 MiB disk with one planned partition validates
successfully against a 20 MiB device; no `DeviceSizeChanged` error
exists in the writer. -/
theorem validate_changes_ignores_device_size :
    DiskWriter.validate_changes sizeChangedWriter = .ok () ∧
    sizeChangedWriter.planner.size ≠ sizeChangedWriter.device_size ∧
    sizeChangedWriter.planner.changes ≠ [] := by
  refine ⟨by decide, by decide, by decide⟩

/-- C7 (amended): writer validation checks only for duplicate partition
ids — its only error is `DuplicatePartitionId`, and its result does not
depend on the observed device size at all. -/
theorem validate_changes_only_duplicate_errors :
    ∀ w : DiskWriter,
      (w.validate_changes = .ok () ∨
        ∃ id, w.validate_changes = .error (.DuplicatePartitionId id)) ∧
      ∀ size2, DiskWriter.validate_changes
          { device_size := size2, planner := w.planner } =
        w.validate_changes := by
  intro w
  constructor
  · cases hv : w.validate_changes with
    | ok u => left; cases u; exact rfl
    | error err =>
      right
      obtain ⟨id, herr, _⟩ := validate_go_error w.planner.changes [] err hv
      exact ⟨id, by rw [herr]⟩
  · intro size2
    rfl

/-- C10: `from_reader` rewinds and reads exactly 128 KiB before
dispatching — every reader holding fewer than 131072 bytes yields an I/O
error (even a complete FAT boot sector in its first 512 bytes, see the
witness), and a sufficient reader dispatches `from_bytes` on exactly its
first 131072 bytes. -/
theorem from_reader_reads_full_budget :
    (∀ r : Buf, r.len < readerBudget →
      Superblock.from_reader r = .error .Io) ∧
    (∀ r : Buf, readerBudget ≤ r.len →
      Superblock.from_reader r =
        Superblock.from_bytes { len := readerBudget, byteAt := r.byteAt }) := by
  constructor
  · intro r h
    unfold Superblock.from_reader
    rw [if_neg (by omega)]
  · intro r h
    unfold Superblock.from_reader
    rw [if_pos h]

/-- C10 witness: a 512-byte reader carrying a valid FAT magic still
fails with an I/O error. -/
theorem from_reader_reads_full_budget_witness :
    fatBoot.len < readerBudget ∧ magic_matches fatDesc fatBoot = true ∧
    Superblock.from_reader fatBoot = .error .Io :=
  ⟨by decide, by decide, from_reader_reads_full_budget.1 fatBoot (by decide)⟩

/-- C8: for every parsed FAT boot sector, `fat_type` is FAT32 exactly
when the 16-bit sectors-per-FAT field (bytes 22-23) is zero and the
32-bit FAT32 length (the first four shared bytes, absolute offset 36) is
non-zero, otherwise FAT16; `uuid` and `label` then read the volume id
and label from the matching overlay of the shared 54-byte region
(FAT16: absolute offsets 39 and 43; FAT32: 67 and 71). -/
theorem fat_type_and_overlay_offsets (b : List Nat) :
    ((Fat.read_from_bytes b).fat_type = .Fat32 ↔
      (le16 b 22 = 0 ∧ le32 b 36 ≠ 0)) ∧
    (Fat.read_from_bytes b).uuid =
      (if le16 b 22 = 0 ∧ le32 b 36 ≠ 0 then vol_id (le32 b 67)
        else vol_id (le32 b 39)) ∧
    (Fat.read_from_bytes b).label =
      (if le16 b 22 = 0 ∧ le32 b 36 ≠ 0 then vol_label ((b.drop 71).take 11)
        else vol_label ((b.drop 43).take 11)) := by
  have hlen : (Fat.read_from_bytes b).fat_length = le16 b 22 := rfl
  have h32 : (Fat.read_from_bytes b).fat32.fat32_length = le32 b 36 := by
    simp [Fat.fat32, Fat.read_from_bytes, le32, getD_take, getD_drop]
  have hv16 : (Fat.read_from_bytes b).fat16.common.vol_id = le32 b 39 := by
    simp [Fat.fat16, Fat16And32Fields.read_from_bytes, Fat.read_from_bytes,
      le32, getD_take, getD_drop]
  have hv32 : (Fat.read_from_bytes b).fat32.common.vol_id = le32 b 67 := by
    simp [Fat.fat32, Fat16And32Fields.read_from_bytes, Fat.read_from_bytes,
      le32, getD_take, getD_drop]
  have hl16 : (Fat.read_from_bytes b).fat16.common.vol_label =
      (b.drop 43).take 11 := by
    simp [Fat.fat16, Fat16And32Fields.read_from_bytes, Fat.read_from_bytes,
      List.drop_take, List.take_take, List.drop_drop]
  have hl32 : (Fat.read_from_bytes b).fat32.common.vol_label =
      (b.drop 71).take 11 := by
    simp [Fat.fat32, Fat16And32Fields.read_from_bytes, Fat.read_from_bytes,
      List.drop_take, List.take_take, List.drop_drop]
  refine ⟨?_, ?_, ?_⟩ <;>
    by_cases hA : le16 b 22 = 0 <;> by_cases hB : le32 b 36 = 0 <;>
      simp [Fat.fat_type, Fat.uuid, Fat.label, hlen, h32, hv16, hv32,
        hl16, hl32, hA, hB]

end DisksRs
